import Mathlib

/-!
Verification of the CodeSE repository against its specification.

The repository ships two frontend source files, `src/frontend/src/App.js` and
`src/frontend/src/SearchResults.js`; they are embedded directly below.  The
core indexing/retrieval pipeline the specification describes (File Walker,
Chunker, Embedder, Vector Store Adapter, Indexing Pipeline, Query Engine) is
not present under `src/`, only called from the frontend, so those components
are modelled from the specification; each such definition carries a doc
comment saying so.
-/

namespace CodeSE

/-! ## Frontend embedding (from the source) -/

/-- ECMAScript whitespace as removed by `String.prototype.trim` (the
WhiteSpace and LineTerminator productions of ECMA-262), used by the
`query.trim()` call in `App.js`. -/
def jsWhitespace (c : Char) : Bool :=
  let n := c.toNat
  n = 0x9 || n = 0xA || n = 0xB || n = 0xC || n = 0xD || n = 0x20 ||
  n = 0xA0 || n = 0x1680 || (0x2000 ≤ n && n ≤ 0x200A) ||
  n = 0x2028 || n = 0x2029 || n = 0x202F || n = 0x205F ||
  n = 0x3000 || n = 0xFEFF

/-- Semantics of JavaScript `s.trim()`: whitespace is removed from both ends
of the string (modelled as a list of characters). -/
def jsTrim (s : List Char) : List Char :=
  ((s.dropWhile jsWhitespace).reverse.dropWhile jsWhitespace).reverse

/-- Embeds `handleSearch` of `App.js` (lines 54-57): when the trimmed query
is empty (falsy) the handler returns without any effect; otherwise it
navigates to the results route carrying the untrimmed query in the route
state.  The returned option is the route state passed to `SearchResults`. -/
def handleSearch (query : List Char) : Option (List Char) :=
  if jsTrim query = [] then none else some query

/-- Embeds the request effect of `SearchResults` (`SearchResults.js` lines
10-16): reading `query` from the route state (which may be absent), it posts
`\x7b query \x7d` to the backend iff `query` is present and truthy, i.e. a
nonempty string.  The result is the payload of the request, when one is
sent. -/
def searchRequest (routeState : Option (List Char)) : Option (List Char) :=
  match routeState with
  | none => none
  | some q => if q = [] then none else some q

/-- The composite frontend behaviour for a search typed into the UI: the
`handleSearch` guard followed by the `SearchResults` request effect. -/
def uiSearch (query : List Char) : Option (List Char) :=
  searchRequest (handleSearch query)

/-- UI state of `App.js` relevant to project selection. -/
structure AppState where
  selectedProject : String
deriving DecidableEq

/-- Embeds `handleProjectSelect` of `App.js` (lines 20-31):
`setSelectedProject(selectedPath)` runs unconditionally, before the awaited
POST to `set_active_project`; the catch block only logs, so the UI selection
stays set whether or not the request succeeds.  `requestOk` abstracts the
outcome of the request; the second component models the backend Active
Project Pointer, which is updated only when the request succeeds. -/
def handleProjectSelect (ui : AppState) (backendPtr : Option String)
    (selectedPath : String) (requestOk : Bool) : AppState × Option String :=
  ({ ui with selectedProject := selectedPath },
   if requestOk then some selectedPath else backendPtr)

/-! ## Frontend lemmas -/

lemma forall_mem_dropWhile_iff (p : Char → Bool) :
    ∀ l : List Char, (∀ a ∈ List.dropWhile p l, p a) ↔ (∀ a ∈ l, p a)
  | [] => by simp
  | x :: xs => by
    by_cases h : p x
    · simpa [List.dropWhile_cons, h] using forall_mem_dropWhile_iff p xs
    · have h' : p x = false := by simpa using h
      simp [List.dropWhile_cons, h']

lemma jsTrim_eq_nil_iff (s : List Char) :
    jsTrim s = [] ↔ s.all jsWhitespace := by
  unfold jsTrim
  rw [List.reverse_eq_nil_iff, List.dropWhile_eq_nil_iff]
  simp only [List.mem_reverse, List.all_eq_true]
  exact forall_mem_dropWhile_iff jsWhitespace s

/-- C9: a request is sent from the UI iff the query has at least one
non-whitespace character, and in that case the query is transmitted verbatim
(untrimmed); a whitespace-only query produces no request (and hence no
user-visible error). -/
theorem uiSearch_characterization (q : List Char) :
    uiSearch q = if q.all jsWhitespace then none else some q := by
  unfold uiSearch handleSearch searchRequest
  by_cases h : q.all jsWhitespace
  · simp [h, (jsTrim_eq_nil_iff q).mpr h]
  · have htrim : ¬ jsTrim q = [] := fun hc => h ((jsTrim_eq_nil_iff q).mp hc)
    have hq : q ≠ [] := by
      intro hc; subst hc; exact htrim rfl
    simp [htrim, hq, h]

/-- C10: the UI selection is set to the chosen path irrespective of the
outcome of the `set_active_project` request; on failure the backend Active
Project Pointer is unchanged, so the displayed selection agrees with the
backend pointer after a failed request exactly when the pointer already was
that path. -/
theorem handleProjectSelect_keeps_selection (ui : AppState)
    (ptr : Option String) (p : String) (ok : Bool) :
    (handleProjectSelect ui ptr p ok).1.selectedProject = p
    ∧ (handleProjectSelect ui ptr p false).2 = ptr
    ∧ ((handleProjectSelect ui ptr p false).2 =
         some (handleProjectSelect ui ptr p false).1.selectedProject ↔
           ptr = some p) := by
  refine ⟨rfl, rfl, ?_⟩
  simp [handleProjectSelect]

/-! ## Backend model

The indexing/retrieval core the spec describes is not in `src/`; the
frontend only calls it over HTTP.  The definitions below are therefore
modelled from the specification, as their doc comments state. -/

/-- Modelled from the spec: chunk metadata (§3 Chunk, §4.7 result assembly).
The field names follow the JSON fields the frontend reads in
`SearchResults.js`: `file_path`, `language`, `start_line`, `end_line`,
`code`. -/
structure ChunkMeta where
  file_path : String
  language : String
  start_line : Nat
  end_line : Nat
  code : String
deriving DecidableEq

/-- Modelled from the spec: an Embedding Record (§3): chunk fingerprint,
vector, chunk metadata and provenance tags, stored under the project's
collection. -/
structure EmbRecord where
  fingerprint : Nat
  vector : List Int
  meta : ChunkMeta
  sources : List String
deriving DecidableEq

/-- A vector-store collection: the records persisted for one project. -/
abbrev Collection := List EmbRecord

/-- The fingerprints stored in a collection, in storage order. -/
def fingerprints (c : Collection) : List Nat :=
  c.map (·.fingerprint)

/-- Modelled from the spec: upserting a single record (§4.5 Vector Store
Adapter).  If the fingerprint is already present the stored record for it is
overwritten in place; otherwise the record is appended. -/
def upsertRecord (c : Collection) (r : EmbRecord) : Collection :=
  if r.fingerprint ∈ fingerprints c then
    c.map (fun x => if x.fingerprint = r.fingerprint then r else x)
  else c ++ [r]

/-- Modelled from the spec: `upsert(collection_id, records)` (§4.5), applied
record by record. -/
def upsert (c : Collection) (rs : List EmbRecord) : Collection :=
  rs.foldl upsertRecord c

/-- The record a collection stores under a fingerprint, if any. -/
def lookupFingerprint (c : Collection) (f : Nat) : Option EmbRecord :=
  c.find? (fun r => decide (r.fingerprint = f))

/-- Modelled from the spec: the Embedder (§4.4).  The real model is an
external collaborator; what the spec requires is a deterministic,
fixed-dimension pure function of the text, modelled here by three integer
features. -/
def embed (t : String) : List Int :=
  [Int.ofNat t.data.length,
   Int.ofNat (t.data.foldl (fun a c => a + c.toNat) 0),
   Int.ofNat (t.data.foldl (fun a c => (a * 31 + c.toNat) % 1000003) 7)]

/-- Modelled from the spec: the similarity metric, fixed per deployment
(§4.5); inner product. -/
def similarity (v w : List Int) : Int :=
  (List.zipWith (· * ·) v w).sum

/-- Modelled from the spec: a query result (§3 Query Result): chunk
metadata, similarity score and provenance tags, as rendered by
`SearchResults.js`. -/
structure QueryResult where
  metadata : ChunkMeta
  score : Int
  sources : List String
deriving DecidableEq

/-- Modelled from the spec: the result ordering (§3 Query Result):
descending similarity score, ties broken by shorter file path then lower
start line. -/
def rankLE (a b : QueryResult) : Prop :=
  b.score < a.score ∨
    (a.score = b.score ∧
      (a.metadata.file_path.length < b.metadata.file_path.length ∨
        (a.metadata.file_path.length = b.metadata.file_path.length ∧
          a.metadata.start_line ≤ b.metadata.start_line)))

instance : DecidableRel rankLE := fun a b => by
  unfold rankLE; exact inferInstance

instance : IsTotal QueryResult rankLE :=
  ⟨by intro a b; unfold rankLE; omega⟩

instance : IsTrans QueryResult rankLE :=
  ⟨by intro a b c hab hbc; unfold rankLE at hab hbc ⊢; omega⟩

/-- Ranking of assembled results by `rankLE` (§3 Query Result ordering). -/
def rank (rs : List QueryResult) : List QueryResult :=
  List.insertionSort rankLE rs

/-- The ranking key: score, file-path length, start line. -/
def rankKey (r : QueryResult) : Int × Nat × Nat :=
  (r.score, r.metadata.file_path.length, r.metadata.start_line)

/-- Result assembly for one stored record (§4.7): attach the chunk's
metadata and provenance tags alongside its similarity score. -/
def resultOf (v : List Int) (r : EmbRecord) : QueryResult :=
  ⟨r.meta, similarity v r.vector, r.sources⟩

/-- Modelled from the spec: nearest-neighbour search over one collection
(§4.5 `query`): score every stored record against the query vector, rank,
and return the top `k`. -/
def queryCollection (c : Collection) (v : List Int) (k : Nat) :
    List QueryResult :=
  (rank (c.map (resultOf v))).take k

/-- Modelled from the spec: the query-time error taxonomy (§7). -/
inductive QError where
  | NoActiveProjectError
  | InvalidQueryError
  | CollectionNotFoundError
deriving DecidableEq

/-- The vector store: collections keyed by collection id. -/
abbrev Store := List (String × Collection)

/-- The collection a store holds under a collection id, if any. -/
def lookupCollection (st : Store) (cid : String) : Option Collection :=
  (st.find? (fun p => decide (p.1 = cid))).map (·.2)

/-- Modelled from the spec: adapter `query(collection_id, vector, k)`
(§4.5).  A missing collection fails with `CollectionNotFoundError`; an
existing but empty collection returns zero results, not an error. -/
def storeQuery (st : Store) (cid : String) (v : List Int) (k : Nat) :
    Except QError (List QueryResult) :=
  match lookupCollection st cid with
  | none => .error .CollectionNotFoundError
  | some c => .ok (queryCollection c v k)

instance {ε α : Type} [DecidableEq ε] [DecidableEq α] :
    DecidableEq (Except ε α) := fun a b =>
  match a, b with
  | .ok x, .ok y => decidable_of_iff (x = y) (by simp)
  | .error x, .error y => decidable_of_iff (x = y) (by simp)
  | .ok _, .error _ => isFalse (by simp)
  | .error _, .ok _ => isFalse (by simp)

/-- The external calls a search issues: which texts were embedded and which
collections were queried. -/
structure QueryTrace where
  embeddedTexts : List String
  queriedCollections : List String
deriving DecidableEq

/-- The trace of a search that made no embedding call and no store query. -/
def emptyTrace : QueryTrace := ⟨[], []⟩

/-- Modelled from the spec: the Query Engine `search` (§4.7, §6).  The
Active Project Pointer is resolved first (§4.7 lists `NoActiveProjectError`
first); empty query text is then rejected before any embedding call; only
then is the query embedded and the adapter queried.  The trace records the
external calls made. -/
def searchExec (st : Store) (active : Option String) (q : String) (k : Nat) :
    Except QError (List QueryResult) × QueryTrace :=
  match active with
  | none => (.error .NoActiveProjectError, emptyTrace)
  | some cid =>
    if q = "" then (.error .InvalidQueryError, emptyTrace)
    else
      match storeQuery st cid (embed q) k with
      | .error e => (.error e, ⟨[q], [cid]⟩)
      | .ok rs => (.ok rs, ⟨[q], [cid]⟩)

/-- The result component of `searchExec`. -/
def search (st : Store) (active : Option String) (q : String) (k : Nat) :
    Except QError (List QueryResult) :=
  (searchExec st active q k).1

/-- Modelled from the spec (§5): query operations are read-only; a search
session yields its result and hands the store back unchanged. -/
def searchSession (st : Store) (active : Option String) (q : String)
    (k : Nat) : (Except QError (List QueryResult) × QueryTrace) × Store :=
  (searchExec st active q k, st)

/-! ### Indexing pipeline model -/

/-- A source file of the project tree, as the walker and classifier hand it
to the chunker (§4.1-§4.3). -/
structure SourceFile where
  path : String
  language : String
  text : String
deriving DecidableEq

/-- Modelled from the spec: a Chunk (§3): a contiguous span of one file's
text with file path, language tag and line range. -/
structure Chunk where
  file_path : String
  language : String
  start_line : Nat
  end_line : Nat
  text : String
deriving DecidableEq

/-- Chunking configuration (§4.3): window size in lines. -/
def chunkSize : Nat := 50

/-- Chunking configuration (§4.3): trailing lines repeated at the start of
the next chunk. -/
def chunkOverlap : Nat := 5

/-- The step between consecutive window starts. -/
def chunkStep : Nat := chunkSize - chunkOverlap

/-- Modelled from the spec: fixed-size sliding line windows with overlap
(§4.3), the fallback chunking strategy.  Returns (start line, lines) pairs;
a final short window is emitted whole. -/
def windows (startLine : Nat) (ls : List String) :
    List (Nat × List String) :=
  if h : ls.length ≤ chunkSize then
    if ls = [] then [] else [(startLine, ls)]
  else
    (startLine, ls.take chunkSize) ::
      windows (startLine + chunkStep) (ls.drop chunkStep)
termination_by ls.length
decreasing_by
  simp only [List.length_drop]
  simp only [chunkSize, chunkStep, chunkOverlap] at h ⊢
  omega

/-- The lines of a file's text. -/
def linesOf (t : String) : List String :=
  t.splitOn "\n"

/-- Modelled from the spec: the Chunker on one file (§4.3): empty files
produce zero chunks; otherwise overlapping line windows, each tagged with
its originating file, language and line range. -/
def chunksOfFile (f : SourceFile) : List Chunk :=
  if f.text = "" then []
  else
    (windows 1 (linesOf f.text)).map fun w =>
      ⟨f.path, f.language, w.1, w.1 + w.2.length - 1,
       String.intercalate "\n" w.2⟩

/-- Modelled from the spec: the content fingerprint, a hash of the chunk
text (§3), over 64-bit words. -/
def hashText (t : String) : Nat :=
  t.data.foldl (fun h c => (h * 31 + c.toNat) % (2 ^ 64)) 5381

/-- Modelled from the spec: the provenance tags attached to persisted
records (§3 Query Result), naming the embedding model version. -/
def defaultSources : List String := ["embedder-v1"]

/-- Embedding a chunk into the record persisted for it (§3 Embedding
Record). -/
def recordOfChunk (c : Chunk) : EmbRecord :=
  ⟨hashText c.text, embed c.text,
   ⟨c.file_path, c.language, c.start_line, c.end_line, c.text⟩,
   defaultSources⟩

/-- Modelled from the spec: the indexing summary (§4.6). -/
structure IndexSummary where
  filesScanned : Nat
  chunksCreated : Nat
  chunksUpdated : Nat
  chunksDeleted : Nat
  filesSkipped : Nat
deriving DecidableEq

/-- All records the current tree should be indexed to. -/
def treeRecords (tree : List SourceFile) : List EmbRecord :=
  (tree.map chunksOfFile).flatten.map recordOfChunk

/-- The records of the old collection that survive the diff: those whose
fingerprint still occurs in the current tree (§4.6 stale chunk cleanup
removes the rest). -/
def keptRecords (tree : List SourceFile) (c : Collection) : Collection :=
  c.filter (fun r => decide (r.fingerprint ∈ fingerprints (treeRecords tree)))

/-- The new or changed records of the current tree: those whose fingerprint
was not yet persisted (§4.6 diff against previously persisted
fingerprints). -/
def newRecords (tree : List SourceFile) (c : Collection) : Collection :=
  (treeRecords tree).filter
    (fun r => decide (r.fingerprint ∉ fingerprints c))

/-- How many of the new records supersede an old record with the same file
and line range: those count as updated, the rest as created (§4.6). -/
def updatedCount (tree : List SourceFile) (c : Collection) : Nat :=
  ((newRecords tree c).filter (fun r => c.any (fun s =>
      decide (s.meta.file_path = r.meta.file_path ∧
              s.meta.start_line = r.meta.start_line ∧
              s.meta.end_line = r.meta.end_line)))).length

/-- Modelled from the spec: one run of the Indexing Pipeline over a project
collection (§4.6): compute the current records, diff against persisted
fingerprints, delete stale records, upsert only new/changed chunks, and
report a summary. -/
def indexProject (tree : List SourceFile) (c : Collection) :
    IndexSummary × Collection :=
  (⟨tree.length,
    (newRecords tree c).length - updatedCount tree c,
    updatedCount tree c,
    c.length - (keptRecords tree c).length,
    (tree.filter (fun f => decide (f.text = ""))).length⟩,
   upsert (keptRecords tree c) (newRecords tree c))

/-! ## Vector store lemmas -/

lemma upsert_nil (c : Collection) : upsert c [] = c := rfl

lemma upsert_cons (c : Collection) (r : EmbRecord) (rs : List EmbRecord) :
    upsert c (r :: rs) = upsert (upsertRecord c r) rs := rfl

lemma fingerprints_nil : fingerprints [] = [] := rfl

lemma fingerprints_cons (r : EmbRecord) (c : Collection) :
    fingerprints (r :: c) = r.fingerprint :: fingerprints c := rfl

lemma fingerprints_upsertRecord (c : Collection) (r : EmbRecord) :
    fingerprints (upsertRecord c r) =
      if r.fingerprint ∈ fingerprints c then fingerprints c
      else fingerprints c ++ [r.fingerprint] := by
  unfold upsertRecord
  by_cases h : r.fingerprint ∈ fingerprints c
  · rw [if_pos h, if_pos h]
    unfold fingerprints
    rw [List.map_map]
    apply List.map_congr_left
    intro x _
    by_cases hx : x.fingerprint = r.fingerprint
    · simp [hx]
    · simp [hx]
  · rw [if_neg h, if_neg h]
    simp [fingerprints]

lemma mem_fingerprints_upsertRecord_of_mem {c : Collection} {f : Nat}
    (r : EmbRecord) (h : f ∈ fingerprints c) :
    f ∈ fingerprints (upsertRecord c r) := by
  rw [fingerprints_upsertRecord]
  by_cases hm : r.fingerprint ∈ fingerprints c
  · rw [if_pos hm]; exact h
  · rw [if_neg hm]; exact List.mem_append_left _ h

lemma self_mem_fingerprints_upsertRecord (c : Collection) (r : EmbRecord) :
    r.fingerprint ∈ fingerprints (upsertRecord c r) := by
  rw [fingerprints_upsertRecord]
  by_cases hm : r.fingerprint ∈ fingerprints c
  · rw [if_pos hm]; exact hm
  · rw [if_neg hm]
    exact List.mem_append_right _ (by simp)

lemma mem_fingerprints_upsert {c : Collection} {rs : List EmbRecord} {f : Nat}
    (h : f ∈ fingerprints c ∨ f ∈ fingerprints rs) :
    f ∈ fingerprints (upsert c rs) := by
  induction rs generalizing c with
  | nil =>
    rcases h with h | h
    · exact h
    · simp [fingerprints_nil] at h
  | cons r rs ih =>
    rw [upsert_cons]
    apply ih
    rcases h with h | h
    · exact Or.inl (mem_fingerprints_upsertRecord_of_mem r h)
    · rcases (by simpa [fingerprints_cons] using h :
          f = r.fingerprint ∨ f ∈ fingerprints rs) with h | h
      · subst h; exact Or.inl (self_mem_fingerprints_upsertRecord c r)
      · exact Or.inr h

lemma fingerprints_upsert_subset {c : Collection} {rs : List EmbRecord}
    {f : Nat} (h : f ∈ fingerprints (upsert c rs)) :
    f ∈ fingerprints c ∨ f ∈ fingerprints rs := by
  induction rs generalizing c with
  | nil => exact Or.inl h
  | cons r rs ih =>
    rw [upsert_cons] at h
    rcases ih h with h' | h'
    · rw [fingerprints_upsertRecord] at h'
      by_cases hm : r.fingerprint ∈ fingerprints c
      · rw [if_pos hm] at h'; exact Or.inl h'
      · rw [if_neg hm] at h'
        rcases List.mem_append.mp h' with h'' | h''
        · exact Or.inl h''
        · right
          rw [fingerprints_cons]
          have hf : f = r.fingerprint := List.mem_singleton.mp h''
          rw [hf]
          exact List.mem_cons_self _ _
    · right
      rw [fingerprints_cons]
      exact List.mem_cons_of_mem _ h'

lemma nodup_fingerprints_upsertRecord {c : Collection}
    (h : (fingerprints c).Nodup) (r : EmbRecord) :
    (fingerprints (upsertRecord c r)).Nodup := by
  rw [fingerprints_upsertRecord]
  by_cases hm : r.fingerprint ∈ fingerprints c
  · rw [if_pos hm]; exact h
  · rw [if_neg hm]
    refine List.nodup_append.mpr ⟨h, List.nodup_singleton _, ?_⟩
    intro a ha hb
    rw [List.mem_singleton] at hb
    subst hb
    exact hm ha

lemma nodup_fingerprints_upsert {c : Collection} (rs : List EmbRecord)
    (h : (fingerprints c).Nodup) :
    (fingerprints (upsert c rs)).Nodup := by
  induction rs generalizing c with
  | nil => exact h
  | cons r rs ih =>
    rw [upsert_cons]
    exact ih (nodup_fingerprints_upsertRecord h r)

lemma lookupFingerprint_upsertRecord (c : Collection) (r : EmbRecord) :
    lookupFingerprint (upsertRecord c r) r.fingerprint = some r := by
  unfold upsertRecord lookupFingerprint
  by_cases hm : r.fingerprint ∈ fingerprints c
  · rw [if_pos hm]
    induction c with
    | nil => simp [fingerprints_nil] at hm
    | cons x xs ih =>
      by_cases hx : x.fingerprint = r.fingerprint
      · simp [List.find?_cons, hx]
      · have hm' : r.fingerprint ∈ fingerprints xs := by
          rcases (by simpa [fingerprints_cons] using hm :
              r.fingerprint = x.fingerprint ∨ r.fingerprint ∈ fingerprints xs)
            with h | h
          · exact absurd h.symm hx
          · exact h
        simpa [List.find?_cons, hx] using ih hm'
  · rw [if_neg hm]
    rw [List.find?_append]
    have h1 : List.find? (fun x => decide (x.fingerprint = r.fingerprint)) c
        = none := by
      rw [List.find?_eq_none]
      intro x hx hpx
      apply hm
      have hfp : x.fingerprint = r.fingerprint := of_decide_eq_true hpx
      rw [← hfp]
      exact List.mem_map_of_mem _ hx
    rw [h1]
    simp [List.find?]

/-! ## Example fixtures used by witnesses -/

/-- A sample chunk metadata value. -/
def exMeta : ChunkMeta := ⟨"a.py", "python", 1, 3, "def f" ⟩

/-- A second sample chunk metadata value with the same span shape. -/
def exMeta2 : ChunkMeta := ⟨"b.py", "python", 1, 3, "def g" ⟩

/-- A sample embedding record. -/
def exRecord : EmbRecord := ⟨17, [1, 2, 3], exMeta, ["embedder-v1"]⟩

/-- A record with the same fingerprint as `exRecord` but a changed vector. -/
def exRecord2 : EmbRecord := ⟨17, [9, 9, 9], exMeta2, ["embedder-v1"]⟩

/-- A record with a fresh fingerprint. -/
def exRecord3 : EmbRecord := ⟨18, [4, 5, 6], exMeta2, ["embedder-v1"]⟩

/-- A sample store with one indexed project and one empty collection. -/
def exStore : Store := [("proj", [exRecord]), ("empty", [])]

/-! ## Claims about the query engine -/

/-- C1: a search issued with no active project set fails explicitly with
`NoActiveProjectError`; it makes no embedding call and queries no
collection (so it never silently searches an arbitrary collection, and its
outcome is an error rather than an ordinary empty result). -/
theorem search_requires_active_project (st : Store) (q : String) (k : Nat) :
    searchExec st none q k =
      (Except.error QError.NoActiveProjectError, emptyTrace)
    ∧ search st none q k = Except.error QError.NoActiveProjectError :=
  ⟨rfl, rfl⟩

/-- C2 counterexample: at the concrete input of an empty query with no
active project set, the search is rejected with `NoActiveProjectError`,
not `InvalidQueryError`, so the claim does not hold for every empty
query. -/
theorem search_empty_query_not_always_invalid :
    search [] none "" 5 = Except.error QError.NoActiveProjectError
    ∧ search [] none "" 5 ≠ Except.error QError.InvalidQueryError :=
  ⟨rfl, by decide⟩

/-- C2 (amended): once an active project is set, an empty query is rejected
with `InvalidQueryError`; and for every empty query, whether or not a
project is set, no embedding call is made and no collection is queried.
The frontend additionally sends no request at all for an empty query. -/
theorem search_empty_query_rejected (st : Store) (cid : String) (k : Nat)
    (active : Option String) :
    searchExec st (some cid) "" k =
      (Except.error QError.InvalidQueryError, emptyTrace)
    ∧ (searchExec st active "" k).2.embeddedTexts = []
    ∧ (searchExec st active "" k).2.queriedCollections = []
    ∧ uiSearch [] = none := by
  refine ⟨rfl, ?_, ?_, rfl⟩
  · cases active <;> rfl
  · cases active <;> rfl

/-- C7: queries are read-only, so a search hands the store back unchanged,
and a second search run immediately after on that store returns the same
results, in the same order, with the same scores. -/
theorem search_deterministic_across_runs (st : Store)
    (active : Option String) (q : String) (k : Nat) :
    (searchSession st active q k).2 = st
    ∧ (searchSession ((searchSession st active q k).2) active q k).1 =
        (searchSession st active q k).1 :=
  ⟨rfl, rfl⟩

/-- C8: an adapter query against a collection id the store does not hold
fails with `CollectionNotFoundError`, while a query against a collection
that exists but is empty returns zero results and is not an error. -/
theorem storeQuery_missing_vs_empty (st : Store) (cid₁ cid₂ : String)
    (v : List Int) (k : Nat)
    (h₁ : lookupCollection st cid₁ = none)
    (h₂ : lookupCollection st cid₂ = some []) :
    storeQuery st cid₁ v k = Except.error QError.CollectionNotFoundError
    ∧ storeQuery st cid₂ v k = Except.ok [] := by
  constructor
  · simp [storeQuery, h₁]
  · simp [storeQuery, h₂, queryCollection, rank]

/-- Witness for C8, at a concrete store holding only an empty collection
named "empty". -/
theorem storeQuery_missing_vs_empty_witness :
    storeQuery [("empty", [])] "missing" [1] 3 =
      Except.error QError.CollectionNotFoundError
    ∧ storeQuery [("empty", [])] "empty" [1] 3 = Except.ok [] :=
  storeQuery_missing_vs_empty [("empty", [])] "missing" "empty" [1] 3
    (by decide) (by decide)

/-- C4: upsert is idempotent by fingerprint: re-upserting the stored record
for a fingerprint is a no-op; upserting a record (changed vector or not)
leaves exactly that record stored under its fingerprint; and from a
collection with pairwise distinct fingerprints, any sequence of upserts
keeps at most one record per distinct fingerprint. -/
theorem upsert_fingerprint_discipline (c : Collection) (r r' : EmbRecord)
    (rs : List EmbRecord) (hnd : (fingerprints c).Nodup)
    (hr : lookupFingerprint c r.fingerprint = some r) :
    upsertRecord c r = c
    ∧ lookupFingerprint (upsertRecord c r') r'.fingerprint = some r'
    ∧ (fingerprints (upsert c rs)).Nodup := by
  refine ⟨?_, lookupFingerprint_upsertRecord c r',
    nodup_fingerprints_upsert rs hnd⟩
  have hrc : r ∈ c := List.mem_of_find?_eq_some hr
  have hmem : r.fingerprint ∈ fingerprints c := List.mem_map_of_mem _ hrc
  unfold upsertRecord
  rw [if_pos hmem]
  have hstep : ∀ x ∈ c,
      (if x.fingerprint = r.fingerprint then r else x) = x := by
    intro x hx
    by_cases hfp : x.fingerprint = r.fingerprint
    · rw [if_pos hfp]
      exact (List.inj_on_of_nodup_map hnd hx hrc hfp).symm
    · rw [if_neg hfp]
  rw [List.map_congr_left hstep, List.map_id']

/-- Witness for C4, at a one-record collection: re-upserting the stored
record is a no-op, upserting a changed vector for fingerprint 17 overwrites
the stored record, and fingerprints stay pairwise distinct. -/
theorem upsert_fingerprint_discipline_witness :
    upsertRecord [exRecord] exRecord = [exRecord]
    ∧ lookupFingerprint (upsertRecord [exRecord] exRecord2)
        exRecord2.fingerprint = some exRecord2
    ∧ (fingerprints (upsert [exRecord] [exRecord2, exRecord3])).Nodup :=
  upsert_fingerprint_discipline [exRecord] exRecord exRecord2
    [exRecord2, exRecord3] (by decide) (by decide)

/-! ## Ranking lemmas -/

lemma eq_of_perm_of_sorted_on {α : Type} {r : α → α → Prop} :
    ∀ (l₁ l₂ : List α), l₁.Perm l₂ → List.Sorted r l₁ → List.Sorted r l₂ →
      (∀ a ∈ l₁, ∀ b ∈ l₁, r a b → r b a → a = b) → l₁ = l₂
  | [], l₂, hp, _, _, _ => (hp.symm.eq_nil).symm
  | a :: t₁, [], hp, _, _, _ => absurd hp.eq_nil (List.cons_ne_nil a t₁)
  | a :: t₁, b :: t₂, hp, hs₁, hs₂, hanti => by
    have hab : a = b := by
      by_contra hne
      have hbmem : b ∈ a :: t₁ := hp.symm.subset (List.mem_cons_self b t₂)
      have hamem : a ∈ b :: t₂ := hp.subset (List.mem_cons_self a t₁)
      have hb₁ : b ∈ t₁ := by
        rcases List.mem_cons.mp hbmem with h | h
        · exact absurd h.symm hne
        · exact h
      have ha₂ : a ∈ t₂ := by
        rcases List.mem_cons.mp hamem with h | h
        · exact absurd h hne
        · exact h
      have rab : r a b := List.rel_of_sorted_cons hs₁ b hb₁
      have rba : r b a := List.rel_of_sorted_cons hs₂ a ha₂
      exact hne (hanti a (List.mem_cons_self a t₁) b
        (List.mem_cons_of_mem a hb₁) rab rba)
    subst hab
    have ht : t₁.Perm t₂ := hp.cons_inv
    have hrec := eq_of_perm_of_sorted_on t₁ t₂ ht hs₁.of_cons hs₂.of_cons
      (fun x hx y hy => hanti x (List.mem_cons_of_mem a hx) y
        (List.mem_cons_of_mem a hy))
    rw [hrec]

lemma rankLE_antisymm_key {a b : QueryResult} (h₁ : rankLE a b)
    (h₂ : rankLE b a) : rankKey a = rankKey b := by
  unfold rankLE at h₁ h₂
  unfold rankKey
  simp only [Prod.mk.injEq]
  omega

/-- C6: ranked result lists are sorted by descending similarity score with
ties broken by shorter file path then lower start line; the output is a
permutation of the input; and on result sets in which no two distinct
results agree on all of score, file-path length and start line, the
ordering is a deterministic function of the result set: every permutation
of the input ranks to the same output list. -/
theorem rank_ordering_deterministic (rs rs' : List QueryResult)
    (hperm : rs.Perm rs')
    (hinj : ∀ a ∈ rs, ∀ b ∈ rs, rankKey a = rankKey b → a = b) :
    List.Sorted rankLE (rank rs)
    ∧ (rank rs).Perm rs
    ∧ rank rs = rank rs' := by
  have hs : List.Sorted rankLE (rank rs) := List.sorted_insertionSort rankLE rs
  have hp : (rank rs).Perm rs := List.perm_insertionSort rankLE rs
  have hs' : List.Sorted rankLE (rank rs') :=
    List.sorted_insertionSort rankLE rs'
  have hp' : (rank rs').Perm rs' := List.perm_insertionSort rankLE rs'
  have hpp : (rank rs).Perm (rank rs') := hp.trans (hperm.trans hp'.symm)
  refine ⟨hs, hp, eq_of_perm_of_sorted_on _ _ hpp hs hs' ?_⟩
  intro a ha b hb h₁ h₂
  exact hinj a (hp.subset ha) b (hp.subset hb) (rankLE_antisymm_key h₁ h₂)

/-- C6 counterexample: two distinct results with equal score, equal
file-path length and equal start line exhaust the spec's tie-breakers; the
two orders of the same two-element result set rank to different lists, so
the ordering is not a deterministic function of the result set alone. -/
theorem rank_not_function_of_set :
    ([⟨⟨"a.py", "py", 1, 1, "x"⟩, 1, []⟩,
      ⟨⟨"b.py", "py", 1, 1, "y"⟩, 1, []⟩] : List QueryResult).Perm
      [⟨⟨"b.py", "py", 1, 1, "y"⟩, 1, []⟩,
       ⟨⟨"a.py", "py", 1, 1, "x"⟩, 1, []⟩]
    ∧ rank [⟨⟨"a.py", "py", 1, 1, "x"⟩, 1, []⟩,
            ⟨⟨"b.py", "py", 1, 1, "y"⟩, 1, []⟩]
        ≠ rank [⟨⟨"b.py", "py", 1, 1, "y"⟩, 1, []⟩,
                ⟨⟨"a.py", "py", 1, 1, "x"⟩, 1, []⟩] := by
  exact ⟨List.Perm.swap _ _ _, by decide⟩

/-- Witness for C6, on a two-element result set with distinct scores: both
orders of the input rank to the same sorted list. -/
theorem rank_ordering_deterministic_witness :
    List.Sorted rankLE (rank [⟨exMeta, 1, []⟩, ⟨exMeta2, 2, []⟩])
    ∧ (rank [⟨exMeta, 1, []⟩, ⟨exMeta2, 2, []⟩]).Perm
        [⟨exMeta, 1, []⟩, ⟨exMeta2, 2, []⟩]
    ∧ rank [⟨exMeta, 1, []⟩, ⟨exMeta2, 2, []⟩] =
        rank [⟨exMeta2, 2, []⟩, ⟨exMeta, 1, []⟩] :=
  rank_ordering_deterministic
    [⟨exMeta, 1, []⟩, ⟨exMeta2, 2, []⟩]
    [⟨exMeta2, 2, []⟩, ⟨exMeta, 1, []⟩]
    (List.Perm.swap _ _ _) (by decide)

/-- C3: every result of a successful search carries the matched chunk's
full text, file path, language tag, start and end line, and its provenance
tags, alongside its similarity score, all taken from a record stored in the
active project's collection. -/
theorem search_results_carry_metadata (st : Store) (cid : String)
    (q : String) (k : Nat) (c : Collection) (results : List QueryResult)
    (r : QueryResult)
    (hc : lookupCollection st cid = some c)
    (hok : search st (some cid) q k = Except.ok results)
    (hr : r ∈ results) :
    ∃ rec, rec ∈ c
      ∧ r.metadata.code = rec.meta.code
      ∧ r.metadata.file_path = rec.meta.file_path
      ∧ r.metadata.language = rec.meta.language
      ∧ r.metadata.start_line = rec.meta.start_line
      ∧ r.metadata.end_line = rec.meta.end_line
      ∧ r.sources = rec.sources
      ∧ r.score = similarity (embed q) rec.vector := by
  by_cases hq : q = ""
  · subst hq
    simp [search, searchExec] at hok
  · have hres : results = queryCollection c (embed q) k := by
      simp [search, searchExec, hq, storeQuery, hc] at hok
      exact hok.symm
    subst hres
    have hr₀ : r ∈ (rank (c.map (resultOf (embed q)))).take k := hr
    have hr₁ : r ∈ rank (c.map (resultOf (embed q))) :=
      List.mem_of_mem_take hr₀
    have hr₂ : r ∈ c.map (resultOf (embed q)) :=
      (List.perm_insertionSort rankLE _).mem_iff.mp hr₁
    obtain ⟨rec, hrec, hre⟩ := List.mem_map.mp hr₂
    subst hre
    exact ⟨rec, hrec, rfl, rfl, rfl, rfl, rfl, rfl, rfl⟩

/-- Witness for C3: the single result of a concrete search against a
one-record collection carries that record's text, path, language, line
range, provenance tags and score. -/
theorem search_results_carry_metadata_witness :
    ∃ rec, rec ∈ [exRecord]
      ∧ (⟨exMeta, 1252, ["embedder-v1"]⟩ : QueryResult).metadata.code =
          rec.meta.code
      ∧ (⟨exMeta, 1252, ["embedder-v1"]⟩ : QueryResult).metadata.file_path =
          rec.meta.file_path
      ∧ (⟨exMeta, 1252, ["embedder-v1"]⟩ : QueryResult).metadata.language =
          rec.meta.language
      ∧ (⟨exMeta, 1252, ["embedder-v1"]⟩ : QueryResult).metadata.start_line =
          rec.meta.start_line
      ∧ (⟨exMeta, 1252, ["embedder-v1"]⟩ : QueryResult).metadata.end_line =
          rec.meta.end_line
      ∧ (⟨exMeta, 1252, ["embedder-v1"]⟩ : QueryResult).sources = rec.sources
      ∧ (⟨exMeta, 1252, ["embedder-v1"]⟩ : QueryResult).score =
          similarity (embed "x") rec.vector :=
  search_results_carry_metadata exStore "proj" "x" 1 [exRecord]
    [⟨exMeta, 1252, ["embedder-v1"]⟩] ⟨exMeta, 1252, ["embedder-v1"]⟩
    (by decide) (by decide) (by decide)

/-! ## Indexing pipeline lemmas -/

lemma mem_fingerprints {c : Collection} {f : Nat} :
    f ∈ fingerprints c ↔ ∃ x, x ∈ c ∧ x.fingerprint = f := by
  unfold fingerprints
  exact List.mem_map

lemma fps_index_subset (tree : List SourceFile) (c : Collection) :
    ∀ f ∈ fingerprints ((indexProject tree c).2),
      f ∈ fingerprints (treeRecords tree) := by
  intro f hf
  have hf' : f ∈ fingerprints
      (upsert (keptRecords tree c) (newRecords tree c)) := hf
  rcases fingerprints_upsert_subset hf' with h | h
  · obtain ⟨x, hx, hfx⟩ := mem_fingerprints.mp h
    have hx' := List.mem_filter.mp hx
    rw [← hfx]
    exact of_decide_eq_true hx'.2
  · obtain ⟨x, hx, hfx⟩ := mem_fingerprints.mp h
    have hx' := List.mem_filter.mp hx
    rw [← hfx]
    exact List.mem_map_of_mem _ hx'.1

lemma fps_index_supset (tree : List SourceFile) (c : Collection) :
    ∀ f ∈ fingerprints (treeRecords tree),
      f ∈ fingerprints ((indexProject tree c).2) := by
  intro f hf
  obtain ⟨x, hx, hfx⟩ := mem_fingerprints.mp hf
  show f ∈ fingerprints (upsert (keptRecords tree c) (newRecords tree c))
  apply mem_fingerprints_upsert
  by_cases hm : x.fingerprint ∈ fingerprints c
  · left
    obtain ⟨y, hy, hfy⟩ := mem_fingerprints.mp hm
    apply mem_fingerprints.mpr
    refine ⟨y, ?_, by rw [hfy, hfx]⟩
    unfold keptRecords
    apply List.mem_filter.mpr
    refine ⟨hy, decide_eq_true ?_⟩
    rw [hfy]
    exact List.mem_map_of_mem _ hx
  · right
    apply mem_fingerprints.mpr
    refine ⟨x, ?_, hfx⟩
    unfold newRecords
    exact List.mem_filter.mpr ⟨hx, decide_eq_true hm⟩

lemma newRecords_after_index (tree : List SourceFile) (c : Collection) :
    newRecords tree ((indexProject tree c).2) = [] := by
  unfold newRecords
  rw [List.filter_eq_nil_iff]
  intro r hr h
  exact (of_decide_eq_true h)
    (fps_index_supset tree c _ (List.mem_map_of_mem _ hr))

lemma keptRecords_after_index (tree : List SourceFile) (c : Collection) :
    keptRecords tree ((indexProject tree c).2) = (indexProject tree c).2 := by
  unfold keptRecords
  rw [List.filter_eq_self]
  intro r hr
  exact decide_eq_true
    (fps_index_subset tree c _ (List.mem_map_of_mem _ hr))

/-- C5: re-running the Indexing Pipeline on an unchanged project tree
produces a summary with zero chunks created, zero updated and zero deleted,
leaves the collection unchanged, and therefore yields an identical query
result set for every fixed query. -/
theorem indexProject_idempotent (tree : List SourceFile) (c₀ : Collection) :
    (indexProject tree (indexProject tree c₀).2).1.chunksCreated = 0
    ∧ (indexProject tree (indexProject tree c₀).2).1.chunksUpdated = 0
    ∧ (indexProject tree (indexProject tree c₀).2).1.chunksDeleted = 0
    ∧ (indexProject tree (indexProject tree c₀).2).2 =
        (indexProject tree c₀).2
    ∧ ∀ q k,
        queryCollection ((indexProject tree (indexProject tree c₀).2).2)
            (embed q) k =
          queryCollection ((indexProject tree c₀).2) (embed q) k := by
  set c₁ := (indexProject tree c₀).2 with hc₁
  have hnew : newRecords tree c₁ = [] := newRecords_after_index tree c₀
  have hkept : keptRecords tree c₁ = c₁ := keptRecords_after_index tree c₀
  have h2 : (indexProject tree c₁).2 = c₁ := by
    show upsert (keptRecords tree c₁) (newRecords tree c₁) = c₁
    rw [hnew, upsert_nil, hkept]
  refine ⟨?_, ?_, ?_, h2, fun q k => by rw [h2]⟩
  · show (newRecords tree c₁).length - updatedCount tree c₁ = 0
    rw [hnew]
    simp
  · show updatedCount tree c₁ = 0
    unfold updatedCount
    rw [hnew]
    rfl
  · show c₁.length - (keptRecords tree c₁).length = 0
    rw [hkept, Nat.sub_self]

end CodeSE
